import Mathlib

/-!
Verification development for `tf_module_updater.py`.

The program scans Terraform files for module declarations, queries the
Terraform registry for published versions, compares them against version
constraints and optionally rewrites the version field in place.  The
definitions below are a shallow embedding of the program's functions.
Network and file I/O are made explicit: HTTP responses, the file system and
interactive answers are passed in as data, and Python exceptions are
modelled with `Option`/`Except`.

The version-comparison logic of the program lives in the third-party
`packaging` library (`packaging.version.Version`,
`packaging.specifiers.SpecifierSet`).  Sections 1 and 2 model that library
(packaging 24.2, where parsing is strict and raises on malformed input):
PEP 440 versions with epoch, release, pre-release, post-release, dev and
local segments.  One corner is outside the model: a trailing separator with
no following number (as in the degenerate `1.0a.`); no behaviour verified
here depends on it.
-/

open Batteries

/-! ### Section 1: model of packaging.version (PEP 440 versions) -/

/-- One segment of a PEP 440 local version label: numeric or alphanumeric
(stored lowercased). -/
inductive LocalSeg where
  | num (n : Nat)
  | str (s : List Char)
deriving Repr, DecidableEq

/-- Model of `packaging.version.Version` after parsing: epoch, release
numbers, optional pre-release (phase: 0 = a, 1 = b, 2 = rc; and number),
optional post-release number, optional dev number, optional local label. -/
structure PyVersion where
  epoch : Nat
  release : List Nat
  pre : Option (Nat × Nat)
  post : Option Nat
  dev : Option Nat
  localv : Option (List LocalSeg)
deriving Repr, DecidableEq

/-- Whitespace characters stripped by Python str.strip with no argument
(ASCII subset; exotic unicode whitespace is outside the model). -/
def isPySpace (c : Char) : Bool :=
  c = ' ' || c = '\t' || c = '\n' || c = '\r' || c = '\x0b' || c = '\x0c'

/-- Model of Python str.strip(): drop surrounding whitespace. -/
def pyStripChars (cs : List Char) : List Char :=
  ((cs.dropWhile isPySpace).reverse.dropWhile isPySpace).reverse

/-- Model of Python str.strip() on strings. -/
def pyStrip (s : String) : String :=
  (pyStripChars s.toList).asString

/-- Case-insensitive comparison of an input character against an ASCII
lowercase keyword character. -/
def eqIgnoreCase (c k : Char) : Bool :=
  c = k || c.toNat + 32 = k.toNat

/-- Accumulate a run of decimal digits, returning the value and the rest. -/
def digitsAux (acc : Nat) : List Char → Nat × List Char
  | [] => (acc, [])
  | c :: cs => if c.isDigit then digitsAux (acc * 10 + (c.toNat - 48)) cs else (acc, c :: cs)

/-- Read one or more decimal digits; fails if the input does not start with a digit. -/
def takeDigits : List Char → Option (Nat × List Char)
  | [] => none
  | c :: cs => if c.isDigit then some (digitsAux (c.toNat - 48) cs) else none

/-- Is this character one of the PEP 440 segment separators. -/
def isSepChar (c : Char) : Bool := c = '-' || c = '_' || c = '.'

/-- Read the rest of a release segment: repeatedly a dot followed by digits
(the regex fragment (\.[0-9]+)*).  Fuel-indexed so the definition is
structural and kernel-reducible. -/
def releaseRest (fuel : Nat) (cs : List Char) : List Nat × List Char :=
  match fuel with
  | 0 => ([], cs)
  | fuel + 1 =>
    match cs with
    | '.' :: c :: cs' =>
      if c.isDigit then
        let (n, rest) := digitsAux (c.toNat - 48) cs'
        let (ns, rest') := releaseRest fuel rest
        (n :: ns, rest')
      else ([], cs)
    | _ => ([], cs)

/-- Case-insensitive match of a literal keyword at the head of the input. -/
def matchKeyword (kw : List Char) (cs : List Char) : Option (List Char) :=
  match kw, cs with
  | [], rest => some rest
  | _ :: _, [] => none
  | k :: ks, c :: cs' => if eqIgnoreCase c k then matchKeyword ks cs' else none

/-- Try a list of (keyword, value) pairs in order; keywords that share text
are listed longest first, matching the backtracking of the packaging regex. -/
def matchFirstKeyword (kws : List (List Char × Nat)) (cs : List Char) : Option (Nat × List Char) :=
  match kws with
  | [] => none
  | (kw, v) :: rest =>
    match matchKeyword kw cs with
    | some r => some (v, r)
    | none => matchFirstKeyword rest cs

/-- Read the optional number after a pre/post/dev keyword: an optional
separator followed by digits; missing number defaults to 0 (the packaging
normalisation). -/
def takeOptNum (cs : List Char) : Nat × List Char :=
  match cs with
  | [] => (0, [])
  | c :: cs' =>
    if c.isDigit then digitsAux (c.toNat - 48) cs'
    else if isSepChar c then
      match cs' with
      | d :: ds => if d.isDigit then digitsAux (d.toNat - 48) ds else (0, c :: cs')
      | [] => (0, c :: cs')
    else (0, c :: cs')

/-- Pre-release keywords with their normalised phase (packaging maps
alpha to a, beta to b, and c/pre/preview to rc). -/
def preKeywords : List (List Char × Nat) :=
  [("alpha".toList, 0), ("beta".toList, 1), ("preview".toList, 2),
   ("pre".toList, 2), ("rc".toList, 2),
   ("a".toList, 0), ("b".toList, 1), ("c".toList, 2)]

/-- Post-release keywords (rev and r normalise to post). -/
def postKeywords : List (List Char × Nat) :=
  [("post".toList, 0), ("rev".toList, 0), ("r".toList, 0)]

/-- Parse an optional keyword segment: optional separator, keyword, optional
number.  Returns the phase value, the number and the rest, or leaves the
input unchanged when the keyword is absent. -/
def parseKeywordSegment (kws : List (List Char × Nat)) (cs : List Char) :
    Option ((Nat × Nat) × List Char) :=
  let body := fun cs' =>
    match matchFirstKeyword kws cs' with
    | some (v, rest) =>
      let (n, rest') := takeOptNum rest
      some ((v, n), rest')
    | none => none
  match cs with
  | c :: cs' =>
    if isSepChar c then
      match body cs' with
      | some r => some r
      | none => body (c :: cs')
    else body cs
  | [] => none

/-- Is this character allowed in a local version segment
(the regex class [a-z0-9] with IGNORECASE). -/
def isLocalAlnum (c : Char) : Bool :=
  c.isDigit || (97 ≤ c.toNat && c.toNat ≤ 122) || (65 ≤ c.toNat && c.toNat ≤ 90)

/-- Lowercase one ASCII character (Python str.lower on the ASCII range). -/
def lowerChar (c : Char) : Char :=
  if 65 ≤ c.toNat && c.toNat ≤ 90 then Char.ofNat (c.toNat + 32) else c

/-- Take a nonempty run of local-label characters, lowercased. -/
def takeAlnum : List Char → List Char × List Char
  | [] => ([], [])
  | c :: cs =>
    if isLocalAlnum c then
      let (s, r) := takeAlnum cs
      (lowerChar c :: s, r)
    else ([], c :: cs)

/-- Classify one local segment: all-digit segments become numbers
(the packaging `_parse_local_version`). -/
def segToLocal (s : List Char) : LocalSeg :=
  if s.all Char.isDigit then .num ((digitsAux 0 s).1) else .str s

/-- Parse the segments of a local version label after the `+`:
alnum runs separated by `-`, `_` or `.`. -/
def localSegsRest (fuel : Nat) (cs : List Char) : List LocalSeg × List Char :=
  match fuel with
  | 0 => ([], cs)
  | fuel + 1 =>
    match cs with
    | c :: d :: cs' =>
      if isSepChar c && isLocalAlnum d then
        let (s, rest) := takeAlnum (d :: cs')
        let (segs, rest') := localSegsRest fuel rest
        (segToLocal s :: segs, rest')
      else ([], cs)
    | _ => ([], cs)

/-- Parse an optional local version label `+seg(-seg)*`. -/
def parseLocal (cs : List Char) : Option (Option (List LocalSeg) × List Char) :=
  match cs with
  | '+' :: rest =>
    let (s, rest') := takeAlnum rest
    if s.isEmpty then none
    else
      let (segs, rest'') := localSegsRest rest'.length rest'
      some (some (segToLocal s :: segs), rest'')
  | _ => some (none, cs)

/-- Parse the post-release alternative `-N` (a hyphen directly followed by
digits, the first alternative of the packaging post group). -/
def parseDashNum (cs : List Char) : Option (Nat × List Char) :=
  match cs with
  | '-' :: c :: cs' => if c.isDigit then some (digitsAux (c.toNat - 48) cs') else none
  | _ => none

/-- Core PEP 440 parse over a whitespace-stripped character list: optional
`v`, optional epoch `N!`, release `N(.N)*`, optional pre, optional post,
optional dev.  The whole input must be consumed. -/
def parsePyVersionChars (cs0 : List Char) : Option PyVersion := do
  let cs1 := match cs0 with
    | c :: r => if c = 'v' || c = 'V' then r else cs0
    | [] => cs0
  let (n0, cs2) ← takeDigits cs1
  let (epoch, firstRel, cs3) ←
    match cs2 with
    | '!' :: rest => do
      let (m, rest') ← takeDigits rest
      pure (n0, m, rest')
    | rest => pure (0, n0, rest)
  let (relRest, cs4) := releaseRest cs3.length cs3
  let (pre, cs5) :=
    match parseKeywordSegment preKeywords cs4 with
    | some ((phase, n), rest) => (some (phase, n), rest)
    | none => (none, cs4)
  let (post, cs6) :=
    match parseDashNum cs5 with
    | some (n, rest) => (some n, rest)
    | none =>
      match parseKeywordSegment postKeywords cs5 with
      | some ((_, n), rest) => (some n, rest)
      | none => (none, cs5)
  let (dev, cs7) :=
    match parseKeywordSegment [("dev".toList, 0)] cs6 with
    | some ((_, n), rest) => (some n, rest)
    | none => (none, cs6)
  let (localSegs, cs8) ← parseLocal cs7
  match cs8 with
  | [] => some { epoch := epoch, release := firstRel :: relRest, pre := pre, post := post,
                 dev := dev, localv := localSegs }
  | _ :: _ => none

/-- Model of `packaging.version.parse` / the `Version` constructor: strip
surrounding whitespace, then parse; `none` models a raised `InvalidVersion`. -/
def parseVersion (s : String) : Option PyVersion :=
  parsePyVersionChars (pyStripChars s.toList)

/-- A version is a pre-release in the packaging sense when it has a
pre-release or dev segment. -/
def isPrereleaseV (v : PyVersion) : Bool := v.pre.isSome || v.dev.isSome

/-- A version is a post-release when it has a post segment. -/
def isPostreleaseV (v : PyVersion) : Bool := v.post.isSome

/-! ### Ordering on parsed versions (the packaging `_cmpkey`) -/

/-- Trailing zeros of the release tuple are ignored when comparing
(packaging strips them in `_cmpkey`). -/
def stripTrailingZeros (l : List Nat) : List Nat :=
  (l.reverse.dropWhile (· = 0)).reverse

/-- Lexicographic comparison of lists by a comparator; a strict prefix is
smaller, matching Python tuple comparison. -/
def cmpList (c : α → α → Ordering) : List α → List α → Ordering
  | [], [] => .eq
  | [], _ :: _ => .lt
  | _ :: _, [] => .gt
  | a :: as, b :: bs => (c a b).then (cmpList c as bs)

/-- Compare through a projection. -/
def cmpOn (f : α → β) (c : β → β → Ordering) (a b : α) : Ordering := c (f a) (f b)

/-- Rank of the pre-release component of the packaging sort key:
dev-only versions sort lowest (NegativeInfinity), versions with a
pre-release next, plain releases highest (Infinity). -/
def preRank (v : PyVersion) : Nat :=
  match v.pre, v.post, v.dev with
  | none, none, some _ => 0
  | none, none, none => 2
  | none, some _, _ => 2
  | some _, _, _ => 1

/-- Pre-release phase used at rank 1 (0 elsewhere). -/
def preLetter (v : PyVersion) : Nat := match v.pre with | some (l, _) => l | none => 0

/-- Pre-release number used at rank 1 (0 elsewhere). -/
def preNum (v : PyVersion) : Nat := match v.pre with | some (_, n) => n | none => 0

/-- Post component rank: absent post sorts below any present post. -/
def postRank (v : PyVersion) : Nat := match v.post with | some _ => 1 | none => 0

/-- Post-release number. -/
def postNum (v : PyVersion) : Nat := v.post.getD 0

/-- Dev component rank: a present dev segment sorts below an absent one. -/
def devRank (v : PyVersion) : Nat := match v.dev with | some _ => 0 | none => 1

/-- Dev number. -/
def devNum (v : PyVersion) : Nat := v.dev.getD 0

/-- Rank of one local segment: alphanumeric segments sort before numeric
ones (packaging encodes them as (NegativeInfinity, s) versus (i, "")). -/
def localSegRank : LocalSeg → Nat
  | .num _ => 1
  | .str _ => 0

/-- Numeric value of a local segment (0 for alphanumeric ones). -/
def localSegNum : LocalSeg → Nat
  | .num n => n
  | .str _ => 0

/-- Characters of a local segment (empty for numeric ones). -/
def localSegChars : LocalSeg → List Char
  | .num _ => []
  | .str s => s

/-- Character comparison by code point. -/
def charCmp : Char → Char → Ordering := cmpOn Char.toNat compare

/-- Comparison of local version segments. -/
def localSegCmp : LocalSeg → LocalSeg → Ordering :=
  compareLex (cmpOn localSegRank compare) <|
  compareLex (cmpOn localSegNum compare) (cmpOn localSegChars (cmpList charCmp))

/-- Rank of the local component: a version without a local label sorts
before one with a label. -/
def localRank (v : PyVersion) : Nat := match v.localv with | some _ => 1 | none => 0

/-- The local segments (empty when absent). -/
def localList (v : PyVersion) : List LocalSeg := v.localv.getD []

/-- Model of the packaging version comparison `_cmpkey`: lexicographic on
epoch, release with trailing zeros stripped, then the pre/post/dev/local
components encoded as rank/payload pairs. -/
def pyVersionCmp : PyVersion → PyVersion → Ordering :=
  compareLex (cmpOn PyVersion.epoch compare) <|
  compareLex (cmpOn (fun v => stripTrailingZeros v.release) (cmpList compare)) <|
  compareLex (cmpOn preRank compare) <|
  compareLex (cmpOn preLetter compare) <|
  compareLex (cmpOn preNum compare) <|
  compareLex (cmpOn postRank compare) <|
  compareLex (cmpOn postNum compare) <|
  compareLex (cmpOn devRank compare) <|
  compareLex (cmpOn devNum compare) <|
  compareLex (cmpOn localRank compare) (cmpOn localList (cmpList localSegCmp))

def versionLeB (a b : PyVersion) : Bool :=
  match pyVersionCmp a b with
  | .gt => false
  | _ => true

/-- Boolean strict comparison on parsed versions. -/
def versionLtB (a b : PyVersion) : Bool :=
  match pyVersionCmp a b with
  | .lt => true
  | _ => false

/-- Boolean equality of the packaging sort keys. -/
def versionEqB (a b : PyVersion) : Bool :=
  match pyVersionCmp a b with
  | .eq => true
  | _ => false

/-! ### Section 2: model of packaging.specifiers (SpecifierSet, packaging 24.2) -/

/-- Comparison operators of a version specifier clause. -/
inductive SpecOp where
  | eq | ne | le | ge | lt | gt | compatible
deriving Repr, DecidableEq

/-- Model of a parsed `packaging.specifiers.Specifier`: an ordinary
comparison against a parsed version, a prefix (wildcard `.*`) clause storing
the epoch and release of the prefix, or the `===` arbitrary string clause. -/
inductive SpecClause where
  | compOp (op : SpecOp) (v : PyVersion)
  | starOp (negated : Bool) (epoch : Nat) (rel : List Nat)
  | arbitraryOp (s : String)
deriving Repr, DecidableEq

/-- Model of Python str.split(sep) for a one-character separator (keeps
empty pieces, like Python). -/
def splitOnCharAux (sep : Char) : List Char → List Char → List (List Char)
  | [], acc => [acc.reverse]
  | c :: cs, acc =>
    if c = sep then acc.reverse :: splitOnCharAux sep cs []
    else splitOnCharAux sep cs (c :: acc)

/-- Split a character list on a separator character. -/
def splitOnChar (sep : Char) (cs : List Char) : List (List Char) :=
  splitOnCharAux sep cs []

/-- Does the second list start with the first. -/
def startsWithChars : List Char → List Char → Bool
  | [], _ => true
  | _ :: _, [] => false
  | p :: ps, c :: cs => p = c && startsWithChars ps cs

/-- Model of Python str.lower() (ASCII range). -/
def pyLower (s : String) : String := (s.toList.map lowerChar).asString

/-- Join strings with dots. -/
def joinDot : List String → String
  | [] => ""
  | [x] => x
  | x :: xs => x ++ "." ++ joinDot xs

/-- Render a pre-release phase code as its canonical letter. -/
def phaseStr (l : Nat) : String := if l = 0 then "a" else if l = 1 then "b" else "rc"

/-- Strip the local label (the packaging Version.public, used by the
ordered comparison operators on the item side). -/
def publicVersion (v : PyVersion) : PyVersion := { v with localv := none }

/-- Render one local segment. -/
def localSegStr : LocalSeg → String
  | .num n => toString n
  | .str s => s.asString

/-- Canonical string of a parsed version (the packaging Version.__str__,
which is what `===` comparison and prefix splitting operate on). -/
def canonicalStr (v : PyVersion) : String :=
  (if v.epoch ≠ 0 then toString v.epoch ++ "!" else "")
    ++ joinDot (v.release.map (fun n => toString n))
    ++ (match v.pre with | some (l, n) => phaseStr l ++ toString n | none => "")
    ++ (match v.post with | some n => ".post" ++ toString n | none => "")
    ++ (match v.dev with | some n => ".dev" ++ toString n | none => "")
    ++ (match v.localv with | some segs => "+" ++ joinDot (segs.map localSegStr) | none => "")

/-- Model of packaging `_version_split` applied to the canonical string of a
parsed version: the epoch as first component, then the release components,
with pre/post/dev segments split off as their own components. -/
def versionSplitSegs (v : PyVersion) : List String :=
  toString v.epoch ::
    (v.release.map (fun n => toString n)
      ++ (match v.pre with | some (l, n) => [phaseStr l ++ toString n] | none => [])
      ++ (match v.post with | some n => ["post" ++ toString n] | none => [])
      ++ (match v.dev with | some n => ["dev" ++ toString n] | none => []))

/-- Is this split component purely numeric. -/
def isDigitSeg (s : String) : Bool := !s.toList.isEmpty && s.toList.all Char.isDigit

/-- Model of packaging `_pad_version` (left side): insert zero components
after the numeric run so it is at least as long as the right's numeric run. -/
def padVersionSegs (item spec : List String) : List String :=
  let itemDigits := item.takeWhile isDigitSeg
  let specDigits := spec.takeWhile isDigitSeg
  itemDigits ++ List.replicate (specDigits.length - itemDigits.length) "0"
    ++ item.drop itemDigits.length

/-- Model of the packaging prefix (wildcard) comparison `== X.*`: pad the
item's split components with zeros, truncate to the spec prefix length and
compare. -/
def starMatch (epoch : Nat) (rel : List Nat) (v : PyVersion) : Bool :=
  let specSegs := toString epoch :: rel.map (fun n => toString n)
  let itemSegs := versionSplitSegs v
  (padVersionSegs itemSegs specSegs).take specSegs.length == specSegs

/-- Equality of the packaging base versions (epoch and release only). -/
def baseKeyEq (a b : PyVersion) : Bool :=
  a.epoch == b.epoch && stripTrailingZeros a.release == stripTrailingZeros b.release

/-- Model of `_compare_equal` without a wildcard: when the specifier's
version has no local label, the item's local label is ignored. -/
def eqContains (sv v : PyVersion) : Bool :=
  if sv.localv.isNone then versionEqB (publicVersion v) sv else versionEqB v sv

/-- Model of one Specifier's containment test given that pre-releases have
already been granted by the set-level gate (the `_compare_*` methods).
The ordered operators `<=`/`>=`/`~=` strip the item's local label; `>` has
the extra post-release and local guards and `<` the pre-release guard. -/
def clauseContains (cl : SpecClause) (v : PyVersion) : Bool :=
  match cl with
  | .compOp .eq sv => eqContains sv v
  | .compOp .ne sv => !eqContains sv v
  | .compOp .le sv => versionLeB (publicVersion v) sv
  | .compOp .ge sv => versionLeB sv (publicVersion v)
  | .compOp .lt sv =>
    versionLtB v sv && !(!isPrereleaseV sv && isPrereleaseV v && baseKeyEq v sv)
  | .compOp .gt sv =>
    versionLtB sv v && !(!isPostreleaseV sv && isPostreleaseV v && baseKeyEq v sv)
      && !(v.localv.isSome && baseKeyEq v sv)
  | .compOp .compatible sv =>
    versionLeB sv (publicVersion v) && starMatch sv.epoch sv.release.dropLast (publicVersion v)
  | .starOp negated epoch rel =>
    if negated then !starMatch epoch rel (publicVersion v)
    else starMatch epoch rel (publicVersion v)
  | .arbitraryOp s => canonicalStr v == pyLower s

/-- Model of `Specifier.prereleases` (packaging 24.2: every operator except
`!=` admits pre-releases when its version is one); for `===` the stored
string is parsed and an unparseable one raises (`none`). -/
def clauseAllowsPrereleases : SpecClause → Option Bool
  | .compOp op sv => some (match op with | .ne => false | _ => isPrereleaseV sv)
  | .starOp _ _ _ => some false
  | .arbitraryOp s => (parseVersion s).map isPrereleaseV

/-- Model of `any(s.prereleases for s in specs)`, short-circuiting like the
Python generator. -/
def anyAllowsPrereleases : List SpecClause → Option Bool
  | [] => some false
  | cl :: rest => do
    let b ← clauseAllowsPrereleases cl
    if b then pure true else anyAllowsPrereleases rest

/-- Parse the version of an `==` or `!=` clause, which may end in the
wildcard `.*` (then only epoch and release may appear before it). -/
def parseEqNe (negated : Bool) (rest : List Char) : Option SpecClause :=
  let r := pyStripChars rest
  if startsWithChars ['*', '.'] r.reverse then do
    let v ← parsePyVersionChars (r.dropLast.dropLast)
    if v.pre = none && v.post = none && v.dev = none && v.localv = none then
      some (.starOp negated v.epoch v.release)
    else none
  else
    (parsePyVersionChars r).map (fun v => .compOp (if negated then .ne else .eq) v)

/-- Model of the `Specifier` constructor on one stripped piece: recognise the
operator, then parse the version with the restrictions of that operator
(`~=` needs a release of at least two components); `none` models a raised
InvalidSpecifier. -/
def parseSpecClause (piece : String) : Option SpecClause :=
  let cs := piece.toList
  if startsWithChars ['=', '=', '='] cs then
    some (.arbitraryOp (pyStripChars (cs.drop 3)).asString)
  else if startsWithChars ['=', '='] cs then parseEqNe false (cs.drop 2)
  else if startsWithChars ['!', '='] cs then parseEqNe true (cs.drop 2)
  else if startsWithChars ['~', '='] cs then do
    let v ← parsePyVersionChars (pyStripChars (cs.drop 2))
    if 2 ≤ v.release.length && v.localv = none then some (.compOp .compatible v) else none
  else if startsWithChars ['<', '='] cs then do
    let v ← parsePyVersionChars (pyStripChars (cs.drop 2))
    if v.localv = none then some (.compOp .le v) else none
  else if startsWithChars ['>', '='] cs then do
    let v ← parsePyVersionChars (pyStripChars (cs.drop 2))
    if v.localv = none then some (.compOp .ge v) else none
  else if startsWithChars ['<'] cs then do
    let v ← parsePyVersionChars (pyStripChars (cs.drop 1))
    if v.localv = none then some (.compOp .lt v) else none
  else if startsWithChars ['>'] cs then do
    let v ← parsePyVersionChars (pyStripChars (cs.drop 1))
    if v.localv = none then some (.compOp .gt v) else none
  else none

/-- Model of the `SpecifierSet` constructor: split on commas, strip, drop
empty pieces, parse each clause; `none` models a raised InvalidSpecifier. -/
def parseSpecifierSet (s : String) : Option (List SpecClause) :=
  (((splitOnChar ',' s.toList).map (fun p => (pyStripChars p).asString)).filter
    (fun p => !p.isEmpty)).mapM parseSpecClause

/-- Model of `item in spec` for a SpecifierSet: parse the item (raising on a
malformed version), compute the pre-release gate, then require every clause
to contain the item; `none` models a raised exception. -/
def specSetContains (specs : List SpecClause) (item : String) : Option Bool := do
  let v ← parseVersion item
  let allows ← anyAllowsPrereleases specs
  if !allows && isPrereleaseV v then pure false
  else pure (specs.all (fun cl => clauseContains cl v))

/-! ### Section 3: find_latest_matching_version (src/tf_module_updater.py lines 90-97) -/

/-- Model of the Python list comprehension with a possibly raising predicate:
the first raised exception aborts the whole comprehension. -/
def listCompFilter (p : α → Option Bool) : List α → Option (List α)
  | [] => some []
  | x :: xs => do
    let b ← p x
    let r ← listCompFilter p xs
    pure (if b then x :: r else r)

/-- Model of Python max(xs, key=version.parse) scanning with a current
maximum: a later element replaces the current one only when strictly
greater, so the first maximum wins. -/
def pyMaxAux (cur : String) (ck : PyVersion) : List String → Option String
  | [] => some cur
  | x :: xs => do
    let k ← parseVersion x
    if versionLtB ck k then pyMaxAux x k xs else pyMaxAux cur ck xs

/-- Model of Python max(xs, key=version.parse); `none` models a raised
exception (empty sequence or unparseable key). -/
def pyMaxVersion : List String → Option String
  | [] => none
  | x :: xs => do
    let k ← parseVersion x
    pyMaxAux x k xs

/-- Embedding of find_latest_matching_version: build the SpecifierSet,
filter the versions through it, take the max of the survivors; any raised
exception (a `none` at any stage) is caught and turned into the empty
string, as is an empty set of survivors. -/
def find_latest_matching_version (versions : List String) (constraint : String) : String :=
  match parseSpecifierSet constraint with
  | none => ""
  | some spec =>
    match listCompFilter (fun v => specSetContains spec v) versions with
    | none => ""
    | some matching =>
      if matching.isEmpty then "" else (pyMaxVersion matching).getD ""


/-! ### Section 4: parse_module_source (src/tf_module_updater.py lines 36-59) -/

/-- Model of Python str.split for a one-character separator, on strings. -/
def pySplit (sep : Char) (s : String) : List String :=
  (splitOnChar sep s.toList).map List.asString

/-- Registry coordinates extracted from a module source string. -/
structure ModuleInfo where
  registry : String
  hostname : String
  «namespace» : String
  module : String
  provider : String
deriving Repr, DecidableEq

/-- Embedding of parse_module_source: split the source on slashes; with at
least four parts and a dot in the first, a private-registry reference; else
with at least three parts a public-registry reference; else no reference
(a logged warning, modelled as none). -/
def parse_module_source (source : String) : Option ModuleInfo :=
  let parts := pySplit '/' source
  if 4 ≤ parts.length && (parts.getD 0 "").toList.contains '.' then
    some { registry := "private", hostname := parts.getD 0 "",
           «namespace» := parts.getD 1 "", module := parts.getD 2 "",
           provider := parts.getD 3 "" }
  else if 3 ≤ parts.length then
    some { registry := "public", hostname := "registry.terraform.io",
           «namespace» := parts.getD 0 "", module := parts.getD 1 "",
           provider := parts.getD 2 "" }
  else none

/-! ### Section 5: hcl2 files, the scanner and update_module_version
(src/tf_module_updater.py lines 99-152)

The hcl2 library is modelled structurally: a parseable file holds the list
of module blocks (dicts mapping a declared name to its attribute dict) plus
the rest of the file's structure, opaque to the program; `hcl2.dump`
re-serialises exactly that structure.  Python dicts are association lists
with unique keys. -/

/-- Attribute dict of one module block. -/
abbrev AttrMap := List (String × String)

/-- Structure that hcl2.load returns for a parseable file. -/
structure TfConfig where
  modules : List (List (String × AttrMap))
  rest : String
deriving Repr, DecidableEq

/-- A file's content: structured (parseable by hcl2) or raw text that hcl2
rejects. -/
inductive FileContent where
  | conf (c : TfConfig)
  | raw (s : String)
deriving Repr, DecidableEq

/-- Model of hcl2.load: an exception on unparseable content. -/
def hcl2_load : FileContent → Except String TfConfig
  | .conf c => .ok c
  | .raw _ => .error "hcl2 parse error"

/-- Model of hcl2.dump: serialise the structure back. -/
def hcl2_dump (c : TfConfig) : FileContent := .conf c

/-- Python dict lookup on an association list. -/
def dictGet (d : List (String × α)) (k : String) : Option α :=
  (d.find? (fun e => e.1 = k)).map (fun e => e.2)

/-- Python dict.get with a default. -/
def dictGetD (d : List (String × α)) (k : String) (dflt : α) : α :=
  (dictGet d k).getD dflt

/-- Python dict assignment d[k] = v: replace the binding or append it. -/
def dictSet : List (String × α) → String → α → List (String × α)
  | [], k, v => [(k, v)]
  | (k', v') :: rest, k, v =>
    if k' = k then (k, v) :: rest else (k', v') :: dictSet rest k v

/-- The file system: paths mapped to contents, in walk order. -/
abbrev FileSystem := List (String × FileContent)

/-- Look a path up in the file system. -/
def fsLookup (fs : FileSystem) (p : String) : Option FileContent :=
  (fs.find? (fun e => e.1 = p)).map (fun e => e.2)

/-- Write a path: the new entry shadows any older one under lookup. -/
def fsWrite (fs : FileSystem) (p : String) (c : FileContent) : FileSystem :=
  (p, c) :: fs

/-- Does the file name end in .tf. -/
def endsWithTf (p : String) : Bool := startsWithChars ['f', 't', '.'] p.toList.reverse

/-- One module declaration found by the scanner. -/
structure ModuleDecl where
  name : String
  source : String
  constraint : String
  file_path : String
  module_info : ModuleInfo
deriving Repr, DecidableEq

/-- Declarations contributed by one file: parse it, then for every entry of
every module block read source and version and keep it when the source
parses; unparseable files and invalid sources are skipped (logged). -/
def scanFile (file_path : String) (content : FileContent) : List ModuleDecl :=
  match hcl2_load content with
  | .error _ => []
  | .ok config =>
    (config.modules.map (fun mdict =>
      mdict.filterMap (fun e =>
        let source := dictGetD e.2 "source" ""
        let version_constraint := dictGetD e.2 "version" ""
        match parse_module_source source with
        | some mi => some { name := e.1, source := source, constraint := version_constraint,
                            file_path := file_path, module_info := mi }
        | none => none))).flatten

/-- Embedding of scan_terraform_modules: walk the files, parse every .tf
file, collect the declarations; never aborts. -/
def scan_terraform_modules (fs : FileSystem) : List ModuleDecl :=
  (fs.map (fun e => if endsWithTf e.1 then scanFile e.1 e.2 else [])).flatten

/-- A file-system write operation, recorded in execution order. -/
inductive FsOp where
  | write (path : String) (content : FileContent)
deriving Repr, DecidableEq

/-- Replay recorded operations on a file system. -/
def replayOps (fs : FileSystem) (ops : List FsOp) : FileSystem :=
  ops.foldl (fun acc op => match op with | .write p c => fsWrite acc p c) fs

/-- The in-place mutation of lines 145-147: set the version attribute of
every module block entry with the matching name. -/
def set_module_version (config : TfConfig) (module_name new_version : String) : TfConfig :=
  { config with modules := config.modules.map (fun mdict =>
      mdict.map (fun e =>
        if e.1 = module_name then (e.1, dictSet e.2 "version" new_version) else e)) }

/-- Embedding of update_module_version as the list of writes it performs,
in order, plus whether an error was caught and reported: read the file
(a missing file raises, caught with nothing written), write the backup,
re-parse (a parse failure is caught after the backup write), then write the
updated structure back.  The timestamp of the backup name is a parameter. -/
def update_module_version (fs : FileSystem) (file_path module_name new_version ts : String) :
    List FsOp × Bool :=
  let backup_path := file_path ++ ".backup_" ++ ts
  match fsLookup fs file_path with
  | none => ([], true)
  | some content =>
    match hcl2_load content with
    | .error _ => ([.write backup_path content], true)
    | .ok config =>
      ([.write backup_path content,
        .write file_path (hcl2_dump (set_module_version config module_name new_version))],
       false)

/-! ### Section 6: the registry client (src/tf_module_updater.py lines 22-34
and 61-88).  HTTP is explicit: the well-known lookup result and the
versions-endpoint response are data. -/

/-- Result of fetching https://host/.well-known/terraform.json: any network,
HTTP or JSON failure, or a JSON object with an optional modules.v1 field. -/
inductive WellKnownResult where
  | failure
  | success (modulesV1 : Option String)
deriving Repr, DecidableEq

/-- Model of Python str.rstrip('/'). -/
def rstripSlashes (s : String) : String :=
  (s.toList.reverse.dropWhile (fun c => c = '/')).reverse.asString

/-- Embedding of get_modules_path: read modules.v1 (with default) and strip
trailing slashes, falling back to the default path on any request failure. -/
def get_modules_path (r : WellKnownResult) : String :=
  match r with
  | .failure => "/api/registry/v1/modules"
  | .success m => rstripSlashes (m.getD "/api/registry/v1/modules/")

/-- An HTTP GET request the program would issue: the URL and the optional
bearer token of the Authorization header. -/
structure HttpRequest where
  url : String
  bearer : Option String
deriving Repr, DecidableEq

/-- Python truthiness of the token value. -/
def tokenTruthy : Option String → Bool
  | none => false
  | some t => !t.isEmpty

/-- Embedding of the request construction of get_module_versions lines
63-69: a private-registry reference with a token queries the private host
through the discovered modules path with the bearer header; everything else
queries the fixed public endpoint with no header. -/
def get_module_versions_request (mi : ModuleInfo) (token : Option String)
    (wellKnown : WellKnownResult) : HttpRequest :=
  if mi.registry = "private" && tokenTruthy token then
    { url := "https://" ++ mi.hostname ++ get_modules_path wellKnown ++ "/" ++ mi.«namespace»
        ++ "/" ++ mi.module ++ "/" ++ mi.provider ++ "/versions",
      bearer := token }
  else
    { url := "https://registry.terraform.io/v1/modules/" ++ mi.«namespace» ++ "/" ++ mi.module
        ++ "/" ++ mi.provider ++ "/versions",
      bearer := none }

/-- First element of the modules list in a versions response (each carries
its version strings; a missing versions key reads as empty). -/
structure ModuleEntry where
  versions : Option (List String)
deriving Repr, DecidableEq

/-- Payload of a successful versions response (a missing modules key falls
back to a single empty entry, line 75). -/
structure RegistryPayload where
  modules : Option (List ModuleEntry)
deriving Repr, DecidableEq

/-- Response of the versions endpoint: network failure, an HTTP error
status, or a JSON payload. -/
inductive RegistryResponse where
  | netError
  | httpError (status : Nat)
  | ok (payload : RegistryPayload)
deriving Repr, DecidableEq

/-- Stable insert keeping the list sorted descending by parsed key. -/
def insertDesc (x : String × PyVersion) :
    List (String × PyVersion) → List (String × PyVersion)
  | [] => [x]
  | y :: ys => if versionLeB y.2 x.2 then x :: y :: ys else y :: insertDesc x ys

/-- Stable insertion sort, descending by parsed key. -/
def insertionSortDesc : List (String × PyVersion) → List (String × PyVersion)
  | [] => []
  | x :: xs => insertDesc x (insertionSortDesc xs)

/-- Pair every version string with its parsed key, in order; the first
unparseable one raises (the key function of line 78). -/
def keyVersions : List String → Option (List (String × PyVersion))
  | [] => some []
  | v :: vs => do
    let p ← parseVersion v
    let rest ← keyVersions vs
    pure ((v, p) :: rest)

/-- Model of sorted(versions, key=version.parse, reverse=True) of line 78:
parsing any element may raise (none); otherwise sort descending by the
parsed keys, stably. -/
def sortVersionsDesc (versions : List String) : Option (List String) := do
  let keyed ← keyVersions versions
  pure ((insertionSortDesc keyed).map Prod.fst)

/-- Embedding of the response handling of get_module_versions lines 71-88:
network and HTTP errors are caught and give an empty list; on a JSON
payload, indexing an empty modules list raises (uncaught), extracting the
versions of the first entry, and sorting raises on an unparseable version
(uncaught).  `Except.error` marks the uncaught exceptions. -/
def get_module_versions_result (resp : RegistryResponse) : Except String (List String) :=
  match resp with
  | .netError => .ok []
  | .httpError _ => .ok []
  | .ok payload =>
    match payload.modules.getD [{ versions := none }] with
    | [] => .error "IndexError: list index out of range"
    | m :: _ =>
      match sortVersionsDesc (m.versions.getD []) with
      | some sortedVs => .ok sortedVs
      | none => .error "InvalidVersion"

deriving instance DecidableEq for Except

/-! ### Section 7: the report and update driver (src/tf_module_updater.py
lines 154-215) -/

/-- Model of Python str.replace(old, <empty>) for a one-character pattern:
remove every occurrence. -/
def pyReplaceAll (c : Char) (s : String) : String :=
  (s.toList.filter (fun d => d ≠ c)).asString

/-- Embedding of the currentVersion derivation of line 192: a constraint
starting with an equals sign has every equals sign removed and surrounding
whitespace stripped; any other constraint is used verbatim. -/
def current_version_of (constraint : String) : String :=
  if startsWithChars ['='] constraint.toList then pyStrip (pyReplaceAll '=' constraint)
  else constraint

/-- Embedding of the update_possible condition of lines 195-198 (Python
string truthiness is non-emptiness). -/
def update_possible (latest_version current_version latest_matching : String) : Bool :=
  !latest_version.isEmpty &&
    (current_version.isEmpty ||
      (latest_version != current_version &&
        (latest_matching.isEmpty || latest_matching != current_version)))

/-- One printed table row (lines 199-202). -/
structure ReportRow where
  updateFlag : String
  name : String
  constraint : String
  currentVersion : String
  latestMatching : String
  latestVersion : String
deriving Repr, DecidableEq

/-- The per-declaration computation of lines 189-202, given the fetched
version list: latest version, latest matching (only when a constraint is
present), current version and the update flag. -/
def computeRow (m : ModuleDecl) (versions : List String) : ReportRow :=
  let latest_version := versions.headD ""
  let latest_matching :=
    if !m.constraint.isEmpty then find_latest_matching_version versions m.constraint else ""
  let current_version := current_version_of m.constraint
  { updateFlag :=
      if update_possible latest_version current_version latest_matching then "(Y)" else "",
    name := m.name, constraint := m.constraint, currentVersion := current_version,
    latestMatching := latest_matching, latestVersion := latest_version }

/-- The command-line switches of the program that matter to the model. -/
structure Args where
  use_token : Bool
  path : String
  update : Bool
  all : Bool
deriving Repr, DecidableEq

/-- The outside world: whether the scan root is a directory, the token in
the credentials file (none when the file is missing, malformed or lacks the
key), the file system, the network (responses keyed by hostname for the
well-known endpoint and by URL for the versions endpoint), the interactive
answers and the backup timestamps.  Answers and timestamps are total:
stdin exhaustion is outside the model. -/
structure World where
  pathIsDir : Bool
  credentials : Option String
  fs : FileSystem
  wellKnown : String → WellKnownResult
  registry : String → RegistryResponse
  answers : Nat → String
  timestamp : Nat → String

/-- The token main uses: only requested with the authenticated flag. -/
def tokenOf (args : Args) (w : World) : Option String :=
  if args.use_token then w.credentials else none

/-- The outcome of a run: a call of exit, a completed run with its table
rows and final file system, or an uncaught exception. -/
inductive MainOutcome where
  | exited (code : Nat)
  | finished (rows : List ReportRow) (fs : FileSystem)
  | crashed (msg : String)
deriving Repr, DecidableEq

/-- The per-declaration loop of lines 186-215: fetch versions (an uncaught
exception aborts the run), print the row, and when an update is possible
apply it in batch mode or after a confirmed prompt, preferring the latest
matching version.  The file system threads through the updates; idx numbers
the declarations (for timestamps) and promptIdx the prompts. -/
def processModules (token : Option String) (w : World) (args : Args) :
    List ModuleDecl → FileSystem → Nat → Nat → Except String (List ReportRow × FileSystem)
  | [], fs, _, _ => .ok ([], fs)
  | m :: rest, fs, idx, promptIdx =>
    let req := get_module_versions_request m.module_info token (w.wellKnown m.module_info.hostname)
    match get_module_versions_result (w.registry req.url) with
    | .error e => .error e
    | .ok versions =>
      let row := computeRow m versions
      let possible := update_possible row.latestVersion row.currentVersion row.latestMatching
      let new_version :=
        if !row.latestMatching.isEmpty then row.latestMatching else row.latestVersion
      let stepFs := fun (f : FileSystem) =>
        if !new_version.isEmpty then
          replayOps f (update_module_version f m.file_path m.name new_version (w.timestamp idx)).1
        else f
      let (fs', promptIdx') :=
        if possible && (args.all || args.update) then
          if args.all then (stepFs fs, promptIdx)
          else
            (if pyLower (pyStrip (w.answers promptIdx)) = "y" then stepFs fs else fs,
             promptIdx + 1)
        else (fs, promptIdx)
      match processModules token w args rest fs' (idx + 1) promptIdx' with
      | .error e => .error e
      | .ok (rows, fsF) => .ok (row :: rows, fsF)

/-- Embedding of main: an invalid scan root exits with code 1; with the
authenticated flag a missing or unreadable credential exits with code 1;
then scan, and when declarations were found process them all in order. -/
def main_model (args : Args) (w : World) : MainOutcome :=
  if !w.pathIsDir then .exited 1
  else if args.use_token && w.credentials.isNone then .exited 1
  else
    let modules := scan_terraform_modules w.fs
    if modules.isEmpty then .finished [] w.fs
    else
      match processModules (tokenOf args w) w args modules w.fs 0 0 with
      | .error e => .crashed e
      | .ok (rows, fs') => .finished rows fs'

/-! ### Comparator instances (Batteries order classes for the embedded
comparators, used by the ordering lemmas below) -/

instance cmpListOriented (c : α → α → Ordering) [OrientedCmp c] : OrientedCmp (cmpList c) where
  symm a b := by
    induction a generalizing b with
    | nil => cases b <;> rfl
    | cons x xs ih =>
      cases b with
      | nil => rfl
      | cons y ys =>
        simp only [cmpList, Ordering.swap_then, OrientedCmp.symm, ih]

instance cmpListTrans (c : α → α → Ordering) [TransCmp c] : TransCmp (cmpList c) where
  le_trans {as bs cs} h1 h2 := by
    revert h1 h2
    induction as generalizing bs cs with
    | nil => intro _ _; cases cs <;> simp [cmpList]
    | cons a as ih =>
      intro h1 h2
      cases bs with
      | nil => simp [cmpList] at h1
      | cons b bs =>
        cases cs with
        | nil => simp [cmpList] at h2
        | cons c' cs =>
          simp only [cmpList, ne_eq, Ordering.then_eq_gt, not_or, not_and] at h1 h2 ⊢
          refine ⟨TransCmp.le_trans h1.1 h2.1, fun hac => ?_⟩
          have hab : c a b = .eq := by
            match e : c a b with
            | .lt => exact absurd (TransCmp.lt_le_trans e h2.1) (by simp [hac])
            | .eq => rfl
            | .gt => exact absurd e h1.1
          have hbc : c b c' = .eq := by
            rw [← @TransCmp.cmp_congr_left α c _ a b c' hab]
            exact hac
          exact ih (h1.2 hab) (h2.2 hbc)

instance cmpOnOriented (f : α → β) (c : β → β → Ordering) [OrientedCmp c] :
    OrientedCmp (cmpOn f c) where
  symm a b := OrientedCmp.symm (f a) (f b)

instance cmpOnTrans (f : α → β) (c : β → β → Ordering) [TransCmp c] :
    TransCmp (cmpOn f c) where
  le_trans {x y z} h1 h2 := @TransCmp.le_trans β c _ (f x) (f y) (f z) h1 h2

instance charCmpTrans : TransCmp charCmp :=
  inferInstanceAs (TransCmp (cmpOn Char.toNat compare))

instance localSegCmpTrans : TransCmp localSegCmp :=
  inferInstanceAs (TransCmp
    (compareLex (cmpOn localSegRank compare) <|
     compareLex (cmpOn localSegNum compare) (cmpOn localSegChars (cmpList charCmp))))

instance pyVersionCmpTrans : TransCmp pyVersionCmp :=
  inferInstanceAs (TransCmp
    (compareLex (cmpOn PyVersion.epoch compare) <|
     compareLex (cmpOn (fun v => stripTrailingZeros v.release) (cmpList compare)) <|
     compareLex (cmpOn preRank compare) <|
     compareLex (cmpOn preLetter compare) <|
     compareLex (cmpOn preNum compare) <|
     compareLex (cmpOn postRank compare) <|
     compareLex (cmpOn postNum compare) <|
     compareLex (cmpOn devRank compare) <|
     compareLex (cmpOn devNum compare) <|
     compareLex (cmpOn localRank compare) (cmpOn localList (cmpList localSegCmp))))

/-! ### Bridge lemmas for the version ordering -/

theorem versionLeB_iff (a b : PyVersion) : versionLeB a b = true ↔ pyVersionCmp a b ≠ .gt := by
  unfold versionLeB; cases h : pyVersionCmp a b <;> simp

theorem versionLtB_iff (a b : PyVersion) : versionLtB a b = true ↔ pyVersionCmp a b = .lt := by
  unfold versionLtB; cases h : pyVersionCmp a b <;> simp

theorem versionLeB_refl (a : PyVersion) : versionLeB a a = true := by
  rw [versionLeB_iff]
  have h : pyVersionCmp a a = .eq := OrientedCmp.cmp_refl
  rw [h]
  simp

theorem versionLeB_trans {a b c : PyVersion} (h1 : versionLeB a b = true)
    (h2 : versionLeB b c = true) : versionLeB a c = true := by
  rw [versionLeB_iff] at h1 h2 ⊢
  exact TransCmp.le_trans h1 h2

theorem versionLtB_le {a b : PyVersion} (h : versionLtB a b = true) : versionLeB a b = true := by
  rw [versionLtB_iff] at h
  rw [versionLeB_iff, h]
  simp

theorem versionLeB_of_not_lt {a b : PyVersion} (h : versionLtB a b = false) :
    versionLeB b a = true := by
  rw [versionLeB_iff]
  intro hgt
  have hlt : pyVersionCmp a b = .lt := OrientedCmp.cmp_eq_gt.mp hgt
  have : versionLtB a b = true := (versionLtB_iff a b).mpr hlt
  rw [this] at h
  exact Bool.noConfusion h

theorem versionLtB_of_not_le {a b : PyVersion} (h : versionLeB a b = false) :
    versionLtB b a = true := by
  have hgt : pyVersionCmp a b = .gt := by
    cases hc : pyVersionCmp a b with
    | lt => rw [(versionLtB_iff a b).mpr hc |> versionLtB_le] at h; exact Bool.noConfusion h
    | eq =>
      have : versionLeB a b = true := by rw [versionLeB_iff, hc]; simp
      rw [this] at h; exact Bool.noConfusion h
    | gt => rfl
  exact (versionLtB_iff b a).mpr (OrientedCmp.cmp_eq_gt.mp hgt)

/-! ### Claim theorems -/

/-- Claim C10: find_latest_matching_version is total over its constraint
argument; a constraint the specifier grammar rejects (such as a tilde-arrow
operator) makes it return the empty string, with no exception escaping. -/
theorem C10_find_latest_total (versions : List String) (constraint : String)
    (h : parseSpecifierSet constraint = none) :
    find_latest_matching_version versions constraint = "" := by
  unfold find_latest_matching_version
  rw [h]

theorem C10_witness :
    parseSpecifierSet "~> 1.2" = none ∧
      find_latest_matching_version ["1.2.3", "1.3.0"] "~> 1.2" = "" :=
  ⟨by decide, C10_find_latest_total ["1.2.3", "1.3.0"] "~> 1.2" (by decide)⟩

/-- Claim C9: for a private-registry reference with no token, the built
request is the fixed public registry.terraform.io URL over the reference's
namespace, module and provider, with no Authorization header; it does not
depend on the well-known discovery response nor on the private hostname. -/
theorem C9_public_request_without_token (mi : ModuleInfo) (wk wk' : WellKnownResult)
    (_hp : mi.registry = "private") :
    get_module_versions_request mi none wk =
      { url := "https://registry.terraform.io/v1/modules/" ++ mi.«namespace» ++ "/" ++ mi.module
          ++ "/" ++ mi.provider ++ "/versions", bearer := none } ∧
    get_module_versions_request mi none wk = get_module_versions_request mi none wk' ∧
    ∀ h, get_module_versions_request { mi with hostname := h } none wk =
        get_module_versions_request mi none wk := by
  unfold get_module_versions_request tokenTruthy
  simp

theorem C9_witness :
    get_module_versions_request
        { registry := "private", hostname := "tfe.example.com", «namespace» := "org",
          module := "mod", provider := "aws" } none (.success (some "/custom/path/"))
      = { url := "https://registry.terraform.io/v1/modules/org/mod/aws/versions",
          bearer := none } :=
  (C9_public_request_without_token
    { registry := "private", hostname := "tfe.example.com", «namespace» := "org",
      module := "mod", provider := "aws" }
    (.success (some "/custom/path/")) (.success (some "/custom/path/")) (by decide)).1

/-- The update_possible boolean of lines 195-198, as a proposition. -/
theorem update_possible_iff (lv cv lm : String) :
    update_possible lv cv lm = true ↔
      (lv ≠ "" ∧ (cv = "" ∨ (lv ≠ cv ∧ (lm = "" ∨ lm ≠ cv)))) := by
  have he : ∀ s : String, (!s.isEmpty) = true ↔ s ≠ "" := by
    intro s
    constructor
    · intro h hc
      subst hc
      exact absurd h (by decide)
    · intro h
      cases hb : s.isEmpty
      · rfl
      · exact absurd ((String.isEmpty_iff s).mp hb) h
  unfold update_possible
  simp only [Bool.and_eq_true, Bool.or_eq_true, he, bne_iff_ne, String.isEmpty_iff, ne_eq]

/-- The update flag of a computed row is the picture of update_possible. -/
theorem computeRow_flag (m : ModuleDecl) (versions : List String) :
    (computeRow m versions).updateFlag =
      (if update_possible (computeRow m versions).latestVersion
          (computeRow m versions).currentVersion (computeRow m versions).latestMatching
        then "(Y)" else "") := rfl

/-- Claim C4: the update flag is set if and only if latestVersion is
non-empty and (currentVersion is empty, or latestVersion differs from
currentVersion and (latestMatching is empty or differs from
currentVersion)). -/
theorem C4_update_flag (m : ModuleDecl) (versions : List String) :
    (computeRow m versions).updateFlag = "(Y)" ↔
      ((computeRow m versions).latestVersion ≠ "" ∧
        ((computeRow m versions).currentVersion = "" ∨
          ((computeRow m versions).latestVersion ≠ (computeRow m versions).currentVersion ∧
            ((computeRow m versions).latestMatching = "" ∨
              (computeRow m versions).latestMatching ≠ (computeRow m versions).currentVersion)))) := by
  rw [← update_possible_iff]
  constructor
  · intro h
    by_cases hp : update_possible (computeRow m versions).latestVersion
        (computeRow m versions).currentVersion (computeRow m versions).latestMatching = true
    · exact hp
    · rw [computeRow_flag, if_neg hp] at h
      exact absurd h (by decide)
  · intro hp
    rw [computeRow_flag, if_pos hp]

theorem C4_witness :
    (computeRow
        { name := "vpc", source := "a/b/c", constraint := ">=1.0", file_path := "main.tf",
          module_info := { registry := "public", hostname := "registry.terraform.io",
                           «namespace» := "a", module := "b", provider := "c" } }
        ["1.5.0"]).updateFlag = "(Y)" :=
  (C4_update_flag _ _).mpr (by decide)

/-- Claim C3: classification of module source strings, plus the scanner
skipping a declaration whose source is invalid while the scan continues. -/
theorem C3_parse_module_source_spec (source : String) :
    (4 ≤ (pySplit '/' source).length →
      ((pySplit '/' source).getD 0 "").toList.contains '.' = true →
      parse_module_source source = some
        { registry := "private", hostname := (pySplit '/' source).getD 0 "",
          «namespace» := (pySplit '/' source).getD 1 "",
          module := (pySplit '/' source).getD 2 "",
          provider := (pySplit '/' source).getD 3 "" }) ∧
    (¬(4 ≤ (pySplit '/' source).length ∧
        ((pySplit '/' source).getD 0 "").toList.contains '.' = true) →
      3 ≤ (pySplit '/' source).length →
      parse_module_source source = some
        { registry := "public", hostname := "registry.terraform.io",
          «namespace» := (pySplit '/' source).getD 0 "",
          module := (pySplit '/' source).getD 1 "",
          provider := (pySplit '/' source).getD 2 "" }) ∧
    ((pySplit '/' source).length < 3 → parse_module_source source = none) ∧
    (∀ (fp r nm : String) (attrs : AttrMap) (d : List (String × AttrMap))
        (more : List (List (String × AttrMap))),
      parse_module_source (dictGetD attrs "source" "") = none →
      scanFile fp (.conf { modules := ((nm, attrs) :: d) :: more, rest := r }) =
        scanFile fp (.conf { modules := d :: more, rest := r })) := by
  refine ⟨?_, ?_, ?_, ?_⟩
  · intro h4 hdot
    have hc : (decide (4 ≤ (pySplit '/' source).length) &&
        ((pySplit '/' source).getD 0 "").toList.contains '.') = true := by
      rw [Bool.and_eq_true, decide_eq_true_eq]
      exact ⟨h4, hdot⟩
    simp only [parse_module_source, hc, if_true]
  · intro hn h3
    have hc : (decide (4 ≤ (pySplit '/' source).length) &&
        ((pySplit '/' source).getD 0 "").toList.contains '.') = false := by
      rw [Bool.eq_false_iff]
      intro hc
      rw [Bool.and_eq_true, decide_eq_true_eq] at hc
      exact hn hc
    simp only [parse_module_source, hc, Bool.false_eq_true, if_false]
    rw [if_pos h3]
  · intro hlt
    have hc : (decide (4 ≤ (pySplit '/' source).length) &&
        ((pySplit '/' source).getD 0 "").toList.contains '.') = false := by
      rw [Bool.eq_false_iff]
      intro hc
      rw [Bool.and_eq_true, decide_eq_true_eq] at hc
      omega
    simp only [parse_module_source, hc, Bool.false_eq_true, if_false]
    rw [if_neg (by omega : ¬ 3 ≤ (pySplit '/' source).length)]
  · intro fp r nm attrs d more hbad
    simp only [scanFile, hcl2_load, List.map_cons, List.filterMap_cons, hbad]

theorem C3_witness :
    parse_module_source "example.com/org/mod/aws" = some
      { registry := "private", hostname := "example.com", «namespace» := "org",
        module := "mod", provider := "aws" } ∧
    parse_module_source "hashicorp/consul/aws" = some
      { registry := "public", hostname := "registry.terraform.io", «namespace» := "hashicorp",
        module := "consul", provider := "aws" } ∧
    parse_module_source "./local/path" = some
      { registry := "public", hostname := "registry.terraform.io", «namespace» := ".",
        module := "local", provider := "path" } ∧
    parse_module_source "justaname" = none :=
  ⟨(C3_parse_module_source_spec "example.com/org/mod/aws").1 (by decide) (by decide),
   (C3_parse_module_source_spec "hashicorp/consul/aws").2.1 (by decide) (by decide),
   (C3_parse_module_source_spec "./local/path").2.1 (by decide) (by decide),
   (C3_parse_module_source_spec "justaname").2.2.1 (by decide)⟩

/-- Every character surviving pyStripChars came from the input, in order. -/
theorem pyStripChars_sublist (l : List Char) : (pyStripChars l).Sublist l := by
  unfold pyStripChars
  have h1 : (l.dropWhile isPySpace).Sublist l := List.dropWhile_sublist _
  have h2 : ((l.dropWhile isPySpace).reverse.dropWhile isPySpace).Sublist
      (l.dropWhile isPySpace).reverse := List.dropWhile_sublist _
  have h3 := h2.reverse
  rw [List.reverse_reverse] at h3
  exact h3.trans h1

/-- Claim C6, counterexample: for the constraint `=1.0,=2.0` the code
removes the second equals sign as well, so the result is not the constraint
with only the leading operator stripped and all other characters
unchanged. -/
theorem C6_counterexample :
    current_version_of "=1.0,=2.0" = "1.0,2.0" ∧
      current_version_of "=1.0,=2.0" ≠ "1.0,=2.0" := by decide

/-- Claim C6 as amended: a constraint not starting with an equals sign is
used verbatim; one starting with an equals sign has every equals sign
removed (not only the leading operator) and surrounding whitespace
stripped, so the result has no equals sign left and its characters are a
subsequence of the constraint. -/
theorem C6_current_version (c : String) :
    (startsWithChars ['='] c.toList = false → current_version_of c = c) ∧
    (startsWithChars ['='] c.toList = true →
      current_version_of c = pyStrip (pyReplaceAll '=' c) ∧
      '=' ∉ (current_version_of c).toList ∧
      (current_version_of c).toList.Sublist c.toList) := by
  constructor
  · intro h
    unfold current_version_of
    rw [if_neg]
    rw [h]
    exact Bool.false_ne_true
  · intro h
    unfold current_version_of
    rw [if_pos h]
    refine ⟨rfl, ?_, ?_⟩
    · intro hmem
      have hmem' : '=' ∈ c.toList.filter (fun d => d ≠ '=') :=
        (pyStripChars_sublist (c.toList.filter (fun d => d ≠ '='))).mem hmem
      exact absurd (List.mem_filter.mp hmem').2 (by decide)
    · exact (pyStripChars_sublist _).trans (List.filter_sublist _)

theorem C6_witness :
    current_version_of "= 1.2.3" = "1.2.3" ∧ current_version_of ">= 1.0" = ">= 1.0" :=
  ⟨((C6_current_version "= 1.2.3").2 (by decide)).1.trans (by decide),
   (C6_current_version ">= 1.0").1 (by decide)⟩

/-- A raising predicate anywhere in the list makes the whole Python list
comprehension raise. -/
theorem listCompFilter_none_of_mem (p : α → Option Bool) {l : List α} {x : α}
    (hx : x ∈ l) (hp : p x = none) : listCompFilter p l = none := by
  induction l with
  | nil => cases hx
  | cons a as ih =>
    rcases List.mem_cons.mp hx with rfl | h
    · simp [listCompFilter, hp]
    · cases ha : p a with
      | none => simp [listCompFilter, ha]
      | some b => simp [listCompFilter, ha, ih h]

/-- Claim C2, counterexample: with versions 1.5.0 and not-a-version under
the constraint >=1.0.0, the parseable 1.5.0 satisfies the constraint yet
the resolver returns the empty string: the unparseable entry aborts the
whole resolution instead of being skipped. -/
theorem C2_counterexample :
    find_latest_matching_version ["1.5.0", "not-a-version"] ">=1.0.0" = "" ∧
    "1.5.0" ∈ ["1.5.0", "not-a-version"] ∧
    (parseSpecifierSet ">=1.0.0").isSome ∧
    specSetContains ((parseSpecifierSet ">=1.0.0").getD []) "1.5.0" = some true := by decide

/-- Claim C2 as amended: the resolver never raises (it is a total function
into strings), but an unparseable entry in the version list does not get
skipped: whenever the constraint itself parses and any entry of the list is
unparseable, the whole resolution returns the empty string, discarding the
parseable matching entries. -/
theorem C2_unparseable_entry_empties_result (versions : List String) (constraint : String)
    (spec : List SpecClause) (hs : parseSpecifierSet constraint = some spec)
    (v : String) (hv : v ∈ versions) (hbad : parseVersion v = none) :
    find_latest_matching_version versions constraint = "" := by
  have hnone : specSetContains spec v = none := by
    unfold specSetContains
    rw [hbad]
    rfl
  have hfil : listCompFilter (fun v => specSetContains spec v) versions = none :=
    listCompFilter_none_of_mem _ hv hnone
  simp only [find_latest_matching_version, hs, hfil]

theorem C2_witness :
    find_latest_matching_version ["2.0.0", "garbage", "1.0.0"] "<3.0" = "" :=
  C2_unparseable_entry_empties_result ["2.0.0", "garbage", "1.0.0"] "<3.0"
    [.compOp .lt ⟨0, [3, 0], none, none, none, none⟩] (by decide)
    "garbage" (by decide) (by decide)

/-- What a successful Python list comprehension filter returns: exactly the
members whose test returned true, each from the input list. -/
theorem listCompFilter_some_spec (p : α → Option Bool) (l : List α) :
    ∀ r, listCompFilter p l = some r →
      (∀ x ∈ r, x ∈ l ∧ p x = some true) ∧ (∀ x ∈ l, p x = some true → x ∈ r) := by
  induction l with
  | nil =>
    intro r h
    simp only [listCompFilter, Option.some.injEq] at h
    subst h
    simp
  | cons a as ih =>
    intro r h
    cases ha : p a with
    | none => simp [listCompFilter, ha] at h
    | some b =>
      cases hrec : listCompFilter p as with
      | none => simp [listCompFilter, ha, hrec] at h
      | some rest =>
        have hr : (if b then a :: rest else rest) = r := by
          simpa [listCompFilter, ha, hrec] using h
        obtain ⟨ih1, ih2⟩ := ih rest hrec
        subst hr
        constructor
        · intro x hx
          cases b with
          | true =>
            rcases List.mem_cons.mp hx with rfl | hx'
            · exact ⟨List.mem_cons_self _ _, ha⟩
            · obtain ⟨hm, hpx⟩ := ih1 x hx'
              exact ⟨List.mem_cons_of_mem _ hm, hpx⟩
          | false =>
            obtain ⟨hm, hpx⟩ := ih1 x hx
            exact ⟨List.mem_cons_of_mem _ hm, hpx⟩
        · intro x hx hpx
          rcases List.mem_cons.mp hx with rfl | hx'
          · rw [ha] at hpx
            cases hpx
            exact List.mem_cons_self _ _
          · have hmem := ih2 x hx' hpx
            cases b
            · exact hmem
            · exact List.mem_cons_of_mem _ hmem

/-- Scanning for the Python max with key: the result parses, it is the
current candidate or a later element, it is at least the current key, and
it bounds every scanned element. -/
theorem pyMaxAux_spec (xs : List String) : ∀ (cur : String) (ck : PyVersion) (r : String),
    parseVersion cur = some ck → pyMaxAux cur ck xs = some r →
    ∃ rk, parseVersion r = some rk ∧ (r = cur ∨ r ∈ xs) ∧ versionLeB ck rk = true ∧
      ∀ x ∈ xs, ∀ xk, parseVersion x = some xk → versionLeB xk rk = true := by
  induction xs with
  | nil =>
    intro cur ck r hcur h
    simp only [pyMaxAux, Option.some.injEq] at h
    subst h
    exact ⟨ck, hcur, Or.inl rfl, versionLeB_refl ck, by simp⟩
  | cons x xs ih =>
    intro cur ck r hcur h
    cases hx : parseVersion x with
    | none => simp [pyMaxAux, hx] at h
    | some k =>
      by_cases hlt : versionLtB ck k = true
      · have h' : pyMaxAux x k xs = some r := by
          simpa [pyMaxAux, hx, hlt] using h
        obtain ⟨rk, hrk, hmem, hle, hmax⟩ := ih x k r hx h'
        refine ⟨rk, hrk, ?_, versionLeB_trans (versionLtB_le hlt) hle, ?_⟩
        · rcases hmem with rfl | hm
          · exact Or.inr (List.mem_cons_self _ _)
          · exact Or.inr (List.mem_cons_of_mem _ hm)
        · intro y hy yk hyk
          rcases List.mem_cons.mp hy with rfl | hy'
          · rw [hx] at hyk
            cases hyk
            exact hle
          · exact hmax y hy' yk hyk
      · have hltf : versionLtB ck k = false := Bool.not_eq_true _ ▸ Bool.eq_false_iff.mpr hlt
        have h' : pyMaxAux cur ck xs = some r := by
          simpa [pyMaxAux, hx, hltf] using h
        obtain ⟨rk, hrk, hmem, hle, hmax⟩ := ih cur ck r hcur h'
        refine ⟨rk, hrk, ?_, hle, ?_⟩
        · rcases hmem with rfl | hm
          · exact Or.inl rfl
          · exact Or.inr (List.mem_cons_of_mem _ hm)
        · intro y hy yk hyk
          rcases List.mem_cons.mp hy with rfl | hy'
          · rw [hx] at hyk
            cases hyk
            exact versionLeB_trans (versionLeB_of_not_lt hltf) hle
          · exact hmax y hy' yk hyk

/-- The Python max over version strings: a member whose parsed key bounds
every parsed key of the list. -/
theorem pyMaxVersion_spec (l : List String) (r : String) (h : pyMaxVersion l = some r) :
    r ∈ l ∧ ∃ rk, parseVersion r = some rk ∧
      ∀ x ∈ l, ∀ xk, parseVersion x = some xk → versionLeB xk rk = true := by
  cases l with
  | nil => simp [pyMaxVersion] at h
  | cons x xs =>
    cases hx : parseVersion x with
    | none => simp [pyMaxVersion, hx] at h
    | some k =>
      have h' : pyMaxAux x k xs = some r := by simpa [pyMaxVersion, hx] using h
      obtain ⟨rk, hrk, hmem, hle, hmax⟩ := pyMaxAux_spec xs x k r hx h'
      constructor
      · rcases hmem with rfl | hm
        · exact List.mem_cons_self _ _
        · exact List.mem_cons_of_mem _ hm
      · refine ⟨rk, hrk, ?_⟩
        intro y hy yk hyk
        rcases List.mem_cons.mp hy with rfl | hy'
        · rw [hx] at hyk
          cases hyk
          exact hle
        · exact hmax y hy' yk hyk

/-- A version the SpecifierSet accepts passes every clause of the set. -/
theorem specSetContains_true_all {specs : List SpecClause} {item : String} {v : PyVersion}
    (hv : parseVersion item = some v) (h : specSetContains specs item = some true) :
    ∀ cl ∈ specs, clauseContains cl v = true := by
  unfold specSetContains at h
  rw [hv] at h
  cases hall : anyAllowsPrereleases specs with
  | none => simp [hall] at h
  | some allows =>
    by_cases hg : allows = false ∧ isPrereleaseV v = true
    · simp [hall, hg] at h
    · simp [hall, hg] at h
      exact h

/-- Claim C1: find_latest_matching_version returns either the empty string
or a version present in the input list that the constraint accepts, passes
every clause of it, and whose parsed key bounds the key of every version of
the list the constraint accepts; it never fabricates a version. -/
theorem C1_find_latest_sound (versions : List String) (constraint : String) :
    find_latest_matching_version versions constraint = "" ∨
    (find_latest_matching_version versions constraint ∈ versions ∧
      ∃ specs, parseSpecifierSet constraint = some specs ∧
        specSetContains specs (find_latest_matching_version versions constraint) = some true ∧
        ∃ rk, parseVersion (find_latest_matching_version versions constraint) = some rk ∧
          (∀ cl ∈ specs, clauseContains cl rk = true) ∧
          ∀ v ∈ versions, specSetContains specs v = some true →
            ∀ vk, parseVersion v = some vk → versionLeB vk rk = true) := by
  cases hs : parseSpecifierSet constraint with
  | none =>
    left
    simp [find_latest_matching_version, hs]
  | some specs =>
    cases hf : listCompFilter (fun v => specSetContains specs v) versions with
    | none =>
      left
      simp [find_latest_matching_version, hs, hf]
    | some matching =>
      by_cases he : matching.isEmpty = true
      · left
        simp [find_latest_matching_version, hs, hf, he]
      · cases hmax : pyMaxVersion matching with
        | none =>
          left
          simp [find_latest_matching_version, hs, hf, he, hmax]
        | some r =>
          right
          have hr : find_latest_matching_version versions constraint = r := by
            simp [find_latest_matching_version, hs, hf, he, hmax]
          rw [hr]
          obtain ⟨hrm, rk, hrk, hmax'⟩ := pyMaxVersion_spec matching r hmax
          obtain ⟨hfil1, hfil2⟩ := listCompFilter_some_spec _ versions matching hf
          obtain ⟨hrinv, hrtrue⟩ := hfil1 r hrm
          refine ⟨hrinv, specs, rfl, hrtrue, rk, hrk,
            specSetContains_true_all hrk hrtrue, ?_⟩
          intro v hv hvt vk hvk
          exact hmax' v (hfil2 v hv hvt) vk hvk

theorem C1_witness :
    find_latest_matching_version ["1.1.0", "1.5.0", "1.9.9", "2.0.0"] ">= 1.2.0, < 2.0.0" = "" ∨
    (find_latest_matching_version ["1.1.0", "1.5.0", "1.9.9", "2.0.0"] ">= 1.2.0, < 2.0.0"
        ∈ ["1.1.0", "1.5.0", "1.9.9", "2.0.0"] ∧
      ∃ specs, parseSpecifierSet ">= 1.2.0, < 2.0.0" = some specs ∧
        specSetContains specs
          (find_latest_matching_version ["1.1.0", "1.5.0", "1.9.9", "2.0.0"] ">= 1.2.0, < 2.0.0")
          = some true ∧
        ∃ rk, parseVersion
            (find_latest_matching_version ["1.1.0", "1.5.0", "1.9.9", "2.0.0"] ">= 1.2.0, < 2.0.0")
            = some rk ∧
          (∀ cl ∈ specs, clauseContains cl rk = true) ∧
          ∀ v ∈ ["1.1.0", "1.5.0", "1.9.9", "2.0.0"], specSetContains specs v = some true →
            ∀ vk, parseVersion v = some vk → versionLeB vk rk = true) :=
  C1_find_latest_sound ["1.1.0", "1.5.0", "1.9.9", "2.0.0"] ">= 1.2.0, < 2.0.0"

/-- Inserting keeps the elements: the result is a permutation. -/
theorem insertDesc_perm (x : String × PyVersion) (l : List (String × PyVersion)) :
    (insertDesc x l).Perm (x :: l) := by
  induction l with
  | nil => exact List.Perm.refl _
  | cons y ys ih =>
    unfold insertDesc
    by_cases h : versionLeB y.2 x.2 = true
    · rw [if_pos h]
    · rw [if_neg h]
      exact (ih.cons y).trans (List.Perm.swap x y ys)

/-- Sorting keeps the elements: the result is a permutation. -/
theorem insertionSortDesc_perm (l : List (String × PyVersion)) :
    (insertionSortDesc l).Perm l := by
  induction l with
  | nil => exact List.Perm.refl _
  | cons x xs ih => exact (insertDesc_perm x _).trans (ih.cons x)

/-- Inserting into a descending list keeps it descending. -/
theorem insertDesc_pairwise (x : String × PyVersion) (l : List (String × PyVersion))
    (h : l.Pairwise (fun a b => versionLeB b.2 a.2 = true)) :
    (insertDesc x l).Pairwise (fun a b => versionLeB b.2 a.2 = true) := by
  induction l with
  | nil => simp [insertDesc]
  | cons y ys ih =>
    rcases List.pairwise_cons.mp h with ⟨hy, hys⟩
    unfold insertDesc
    by_cases hxy : versionLeB y.2 x.2 = true
    · rw [if_pos hxy]
      refine List.pairwise_cons.mpr ⟨?_, h⟩
      intro z hz
      rcases List.mem_cons.mp hz with rfl | hz'
      · exact hxy
      · exact versionLeB_trans (hy z hz') hxy
    · rw [if_neg hxy]
      refine List.pairwise_cons.mpr ⟨?_, ih hys⟩
      intro z hz
      have hz' := (insertDesc_perm x ys).mem_iff.mp hz
      rcases List.mem_cons.mp hz' with rfl | hz''
      · exact versionLtB_le (versionLtB_of_not_le (Bool.eq_false_iff.mpr hxy))
      · exact hy z hz''

/-- The sorted list is pairwise descending by key. -/
theorem insertionSortDesc_pairwise (l : List (String × PyVersion)) :
    (insertionSortDesc l).Pairwise (fun a b => versionLeB b.2 a.2 = true) := by
  induction l with
  | nil => simp [insertionSortDesc]
  | cons x xs ih => exact insertDesc_pairwise x _ ih

/-- A successful keying pairs every string of the list, in order, with its
parsed version. -/
theorem keyVersions_spec (vs : List String) :
    ∀ keyed, keyVersions vs = some keyed →
      keyed.map Prod.fst = vs ∧ ∀ e ∈ keyed, parseVersion e.1 = some e.2 := by
  induction vs with
  | nil =>
    intro keyed h
    simp only [keyVersions, Option.some.injEq] at h
    subst h
    simp
  | cons v vs ih =>
    intro keyed h
    cases hp : parseVersion v with
    | none => simp [keyVersions, hp] at h
    | some p =>
      cases hrec : keyVersions vs with
      | none => simp [keyVersions, hp, hrec] at h
      | some rest =>
        have hk : (v, p) :: rest = keyed := by simpa [keyVersions, hp, hrec] using h
        obtain ⟨ih1, ih2⟩ := ih rest hrec
        subst hk
        constructor
        · simp [ih1]
        · intro e he
          rcases List.mem_cons.mp he with rfl | he'
          · exact hp
          · exact ih2 e he'

/-- A successful sort returns a permutation of the input, pairwise
descending by the parsed version keys. -/
theorem sortVersionsDesc_spec (vs out : List String) (h : sortVersionsDesc vs = some out) :
    out.Perm vs ∧ out.Pairwise (fun a b => ∃ ka kb, parseVersion a = some ka ∧
      parseVersion b = some kb ∧ versionLeB kb ka = true) := by
  unfold sortVersionsDesc at h
  cases hk : keyVersions vs with
  | none =>
    rw [hk] at h
    cases h
  | some keyed =>
    have hout : (insertionSortDesc keyed).map Prod.fst = out := by
      simpa [hk] using h
    obtain ⟨hmap, hparse⟩ := keyVersions_spec vs keyed hk
    have hp : (insertionSortDesc keyed).Perm keyed := insertionSortDesc_perm keyed
    subst hout
    constructor
    · have := hp.map Prod.fst
      rw [hmap] at this
      exact this
    · rw [List.pairwise_map]
      refine (insertionSortDesc_pairwise keyed).imp_of_mem ?_
      intro a b ha hb hrel
      exact ⟨a.2, b.2, hparse a (hp.subset ha), hparse b (hp.subset hb), hrel⟩

/-- Claim C5: the version list a successful get_module_versions returns is
a permutation of the versions of the payload's first module entry, sorted
descending by parsed semantic-version precedence (numeric, not
lexicographic). -/
theorem C5_get_module_versions_sorted (payload : RegistryPayload) (entry : ModuleEntry)
    (more : List ModuleEntry) (out : List String)
    (hm : payload.modules = some (entry :: more))
    (h : get_module_versions_result (.ok payload) = .ok out) :
    out.Perm (entry.versions.getD []) ∧
    out.Pairwise (fun a b => ∃ ka kb, parseVersion a = some ka ∧ parseVersion b = some kb ∧
      versionLeB kb ka = true) := by
  simp only [get_module_versions_result] at h
  rw [hm] at h
  simp only [Option.getD_some] at h
  cases hs : sortVersionsDesc (entry.versions.getD []) with
  | none =>
    rw [hs] at h
    cases h
  | some sortedVs =>
    rw [hs] at h
    cases h
    exact sortVersionsDesc_spec _ _ hs

theorem C5_witness :
    get_module_versions_result
        (.ok { modules := some [{ versions := some ["1.2.0", "1.10.0", "1.3.0"] }] })
      = .ok ["1.10.0", "1.3.0", "1.2.0"] ∧
    (["1.10.0", "1.3.0", "1.2.0"] : List String).Perm ["1.2.0", "1.10.0", "1.3.0"] ∧
    (["1.10.0", "1.3.0", "1.2.0"] : List String).Pairwise
      (fun a b => ∃ ka kb, parseVersion a = some ka ∧ parseVersion b = some kb ∧
        versionLeB kb ka = true) := by
  refine ⟨by decide, ?_⟩
  have h := C5_get_module_versions_sorted
    { modules := some [{ versions := some ["1.2.0", "1.10.0", "1.3.0"] }] }
    { versions := some ["1.2.0", "1.10.0", "1.3.0"] } [] ["1.10.0", "1.3.0", "1.2.0"]
    (by decide) (by decide)
  exact h

/-- Lookup after a write: the written path reads the new content, any other
path is untouched. -/
theorem fsLookup_cons (p : String) (c : FileContent) (fs : FileSystem) (q : String) :
    fsLookup ((p, c) :: fs) q = if p = q then some c else fsLookup fs q := by
  by_cases h : p = q <;> simp [fsLookup, List.find?_cons, h]

/-- The backup path is strictly longer than the file path. -/
theorem backup_ne (fp ts : String) : fp ++ ".backup_" ++ ts ≠ fp := by
  intro h
  have hlen := congrArg String.length h
  have h8 : (".backup_" : String).length = 8 := rfl
  rw [String.length_append, String.length_append, h8] at hlen
  omega

theorem dictGet_dictSet_same (d : List (String × α)) (k : String) (v : α) :
    dictGet (dictSet d k v) k = some v := by
  induction d with
  | nil => simp [dictSet, dictGet, List.find?]
  | cons e rest ih =>
    obtain ⟨k', v'⟩ := e
    unfold dictSet
    by_cases h : k' = k
    · rw [if_pos h]
      simp [dictGet, List.find?_cons]
    · rw [if_neg h]
      simpa [dictGet, List.find?_cons, h] using ih

theorem dictGet_dictSet_other (d : List (String × α)) (k q : String) (v : α) (h : q ≠ k) :
    dictGet (dictSet d k v) q = dictGet d q := by
  induction d with
  | nil => simp [dictSet, dictGet, List.find?, Ne.symm h]
  | cons e rest ih =>
    obtain ⟨k', v'⟩ := e
    unfold dictSet
    by_cases hk : k' = k
    · rw [if_pos hk]
      subst hk
      simp [dictGet, List.find?_cons, Ne.symm h]
    · rw [if_neg hk]
      by_cases hq : k' = q
      · simp [dictGet, List.find?_cons, hq]
      · simpa [dictGet, List.find?_cons, hq] using ih

/-- One entry of a module block after the conditional version assignment:
name kept, attributes untouched unless the name matches, and then only the
version binding changes. -/
theorem set_entry_rel (mn nv : String) (e : String × AttrMap) :
    (if e.1 = mn then (e.1, dictSet e.2 "version" nv) else e).1 = e.1 ∧
    (e.1 ≠ mn → (if e.1 = mn then (e.1, dictSet e.2 "version" nv) else e).2 = e.2) ∧
    (e.1 = mn →
      dictGet (if e.1 = mn then (e.1, dictSet e.2 "version" nv) else e).2 "version" = some nv ∧
      ∀ k, k ≠ "version" →
        dictGet (if e.1 = mn then (e.1, dictSet e.2 "version" nv) else e).2 k
          = dictGet e.2 k) := by
  by_cases he : e.1 = mn
  · rw [if_pos he]
    exact ⟨rfl, fun hne => absurd he hne,
      fun _ => ⟨dictGet_dictSet_same _ _ _, fun k hk => dictGet_dictSet_other _ _ _ _ hk⟩⟩
  · rw [if_neg he]
    exact ⟨rfl, fun _ => rfl, fun hm => absurd hm he⟩

/-- The in-place version update touches exactly the version attribute of
the entries with the matching name. -/
theorem set_module_version_forall₂ (cfg : TfConfig) (mn nv : String) :
    List.Forall₂ (List.Forall₂ (fun eOld eNew : String × AttrMap =>
      eNew.1 = eOld.1 ∧ (eOld.1 ≠ mn → eNew.2 = eOld.2) ∧
      (eOld.1 = mn → dictGet eNew.2 "version" = some nv ∧
        ∀ k, k ≠ "version" → dictGet eNew.2 k = dictGet eOld.2 k)))
    cfg.modules (set_module_version cfg mn nv).modules := by
  show List.Forall₂ _ cfg.modules (cfg.modules.map _)
  induction cfg.modules with
  | nil => exact List.Forall₂.nil
  | cons d ds ih =>
    refine List.Forall₂.cons ?_ ih
    induction d with
    | nil => exact List.Forall₂.nil
    | cons e es ihe =>
      exact List.Forall₂.cons (set_entry_rel mn nv e) ihe

/-- Claim C7: the update procedure writes a full-content backup before the
original is mutated (every prefix of its operations leaves the original
untouched or the backup holding the old content), touches no other file,
leaves the original unchanged when an error was reported, and on success
rewrites the file to the old structure with exactly the matching module
entries' version attribute changed and everything else preserved. -/
theorem C7_update_module_version_spec (fs : FileSystem) (fp mn nv ts : String) :
    (∀ n, fsLookup (replayOps fs ((update_module_version fs fp mn nv ts).1.take n)) fp
            = fsLookup fs fp ∨
          fsLookup (replayOps fs ((update_module_version fs fp mn nv ts).1.take n))
            (fp ++ ".backup_" ++ ts) = fsLookup fs fp) ∧
    (∀ p, p ≠ fp → p ≠ fp ++ ".backup_" ++ ts →
      fsLookup (replayOps fs (update_module_version fs fp mn nv ts).1) p = fsLookup fs p) ∧
    ((update_module_version fs fp mn nv ts).2 = true →
      fsLookup (replayOps fs (update_module_version fs fp mn nv ts).1) fp = fsLookup fs fp) ∧
    ((update_module_version fs fp mn nv ts).2 = false →
      ∃ cfg, fsLookup fs fp = some (.conf cfg) ∧
        fsLookup (replayOps fs (update_module_version fs fp mn nv ts).1)
          (fp ++ ".backup_" ++ ts) = some (.conf cfg) ∧
        fsLookup (replayOps fs (update_module_version fs fp mn nv ts).1) fp
          = some (.conf (set_module_version cfg mn nv)) ∧
        (set_module_version cfg mn nv).rest = cfg.rest ∧
        List.Forall₂ (List.Forall₂ (fun eOld eNew : String × AttrMap =>
            eNew.1 = eOld.1 ∧ (eOld.1 ≠ mn → eNew.2 = eOld.2) ∧
            (eOld.1 = mn → dictGet eNew.2 "version" = some nv ∧
              ∀ k, k ≠ "version" → dictGet eNew.2 k = dictGet eOld.2 k)))
          cfg.modules (set_module_version cfg mn nv).modules) := by
  have hbne : fp ++ ".backup_" ++ ts ≠ fp := backup_ne fp ts
  cases hl : fsLookup fs fp with
  | none =>
    simp only [update_module_version, hl]
    refine ⟨?_, ?_, ?_, ?_⟩
    · intro n
      left
      simp [replayOps, hl]
    · intro p _ _
      simp [replayOps]
    · intro _
      simp [replayOps, hl]
    · intro h
      cases h
  | some content =>
    cases content with
    | raw s =>
      simp only [update_module_version, hl, hcl2_load]
      refine ⟨?_, ?_, ?_, ?_⟩
      · intro n
        cases n with
        | zero => left; simp [replayOps, hl]
        | succ n =>
          left
          simp [replayOps, fsWrite, fsLookup_cons, hbne, hl]
      · intro p hp hpb
        simp [replayOps, fsWrite, fsLookup_cons, Ne.symm hpb]
      · intro _
        simp [replayOps, fsWrite, fsLookup_cons, hbne, hl]
      · intro h
        cases h
    | conf cfg =>
      simp only [update_module_version, hl, hcl2_load, hcl2_dump]
      refine ⟨?_, ?_, ?_, ?_⟩
      · intro n
        cases n with
        | zero => left; simp [replayOps, hl]
        | succ n =>
          cases n with
          | zero =>
            left
            simp [replayOps, fsWrite, fsLookup_cons, hbne, hl]
          | succ n =>
            right
            simp [replayOps, fsWrite, fsLookup_cons, hbne, Ne.symm hbne]
      · intro p hp hpb
        simp [replayOps, fsWrite, fsLookup_cons, Ne.symm hp, Ne.symm hpb]
      · intro h
        cases h
      · intro _
        refine ⟨cfg, rfl, ?_, ?_, rfl, set_module_version_forall₂ cfg mn nv⟩
        · simp [replayOps, fsWrite, fsLookup_cons, hbne, Ne.symm hbne]
        · simp [replayOps, fsWrite, fsLookup_cons]

theorem C7_witness :
    (update_module_version
        [("main.tf", .conf { modules := [[("vpc", [("source", "a/b/c"), ("version", "1.0.0")])]],
                             rest := "other content" })]
        "main.tf" "vpc" "2.0.0" "20240101").2 = false ∧
    fsLookup (replayOps
        [("main.tf", .conf { modules := [[("vpc", [("source", "a/b/c"), ("version", "1.0.0")])]],
                             rest := "other content" })]
        (update_module_version
          [("main.tf", .conf { modules := [[("vpc", [("source", "a/b/c"), ("version", "1.0.0")])]],
                               rest := "other content" })]
          "main.tf" "vpc" "2.0.0" "20240101").1)
        "main.tf"
      = some (.conf { modules := [[("vpc", [("source", "a/b/c"), ("version", "2.0.0")])]],
                      rest := "other content" }) ∧
    (∀ p, p ≠ "main.tf" → p ≠ "main.tf" ++ ".backup_" ++ "20240101" →
      fsLookup (replayOps
          [("main.tf", .conf { modules := [[("vpc", [("source", "a/b/c"), ("version", "1.0.0")])]],
                               rest := "other content" })]
          (update_module_version
            [("main.tf", .conf { modules := [[("vpc", [("source", "a/b/c"), ("version", "1.0.0")])]],
                                 rest := "other content" })]
            "main.tf" "vpc" "2.0.0" "20240101").1) p
        = fsLookup
            [("main.tf", .conf { modules := [[("vpc", [("source", "a/b/c"), ("version", "1.0.0")])]],
                                 rest := "other content" })] p) :=
  ⟨by decide, by decide,
   (C7_update_module_version_spec
      [("main.tf", .conf { modules := [[("vpc", [("source", "a/b/c"), ("version", "1.0.0")])]],
                           rest := "other content" })]
      "main.tf" "vpc" "2.0.0" "20240101").2.1⟩

/-- The processing loop completes with one row per declaration whenever
every declaration's registry response is handled without an uncaught
exception, whatever per-module failures (network errors, HTTP errors,
empty version lists) or file updates occur along the way. -/
theorem processModules_ok (token : Option String) (w : World) (args : Args) :
    ∀ (ms : List ModuleDecl) (fs : FileSystem) (i j : Nat),
      (∀ m ∈ ms, ∃ vs, get_module_versions_result (w.registry
        (get_module_versions_request m.module_info token
          (w.wellKnown m.module_info.hostname)).url) = .ok vs) →
      ∃ rows fs', processModules token w args ms fs i j = .ok (rows, fs') ∧
        rows.length = ms.length := by
  intro ms
  induction ms with
  | nil =>
    intro fs i j _
    exact ⟨[], fs, rfl, rfl⟩
  | cons m rest ih =>
    intro fs i j hben
    obtain ⟨vs, hvs⟩ := hben m (List.mem_cons_self _ _)
    simp only [processModules, hvs]
    obtain ⟨rows, fsF, hrec, hlen⟩ :=
      ih _ (i + 1) _ (fun m' hm' => hben m' (List.mem_cons_of_mem _ hm'))
    rw [hrec]
    exact ⟨computeRow m vs :: rows, fsF, rfl, by simp [hlen]⟩

/-- Claim C8, counterexample: a registry success response whose payload has
an empty modules list raises an uncaught IndexError, terminating the
process with a traceback (non-zero exit), even though the scan root is
valid and no credential is involved. -/
theorem C8_counterexample :
    main_model { use_token := false, path := ".", update := false, all := false }
      { pathIsDir := true, credentials := none,
        fs := [("main.tf",
          .conf { modules := [[("vpc", [("source", "hashicorp/consul/aws")])]], rest := "" })],
        wellKnown := fun _ => .failure,
        registry := fun _ => .ok { modules := some [] },
        answers := fun _ => "", timestamp := fun _ => "" }
      = .crashed "IndexError: list index out of range" := by decide

/-- Claim C8 as amended: an invalid scan root exits non-zero, a missing or
unreadable credential in authenticated mode exits non-zero, and whenever
every reachable registry response is processed without an uncaught
exception, the run finishes with one table row per scanned declaration —
all remaining errors (unparsable sources, unparsable files, network or
HTTP failures, empty version lists, per-file update failures) are absorbed.
A malformed success payload, however, crashes the run (see the
counterexample), which the original claim did not list. -/
theorem C8_fatal_and_absorbed (args : Args) (w : World) :
    (w.pathIsDir = false → main_model args w = .exited 1) ∧
    (w.pathIsDir = true → args.use_token = true → w.credentials = none →
      main_model args w = .exited 1) ∧
    (w.pathIsDir = true → (args.use_token = true → w.credentials.isSome = true) →
      (∀ m ∈ scan_terraform_modules w.fs, ∃ vs,
        get_module_versions_result (w.registry
          (get_module_versions_request m.module_info (tokenOf args w)
            (w.wellKnown m.module_info.hostname)).url) = .ok vs) →
      ∃ rows fs', main_model args w = .finished rows fs' ∧
        rows.length = (scan_terraform_modules w.fs).length) := by
  refine ⟨?_, ?_, ?_⟩
  · intro h
    simp [main_model, h]
  · intro hdir htok hcred
    simp [main_model, hdir, htok, hcred]
  · intro hdir hcred hben
    by_cases hemp : (scan_terraform_modules w.fs).isEmpty = true
    · refine ⟨[], w.fs, ?_, ?_⟩
      · simp [main_model, hdir, hemp, Option.isNone_iff_eq_none]
        intro hu
        cases hc : w.credentials with
        | none =>
          have := hcred hu
          rw [hc] at this
          cases this
        | some t => simp [hc]
      · rw [List.isEmpty_iff.mp hemp]
        rfl
    · obtain ⟨rows, fs', hrun, hlen⟩ :=
        processModules_ok (tokenOf args w) w args (scan_terraform_modules w.fs) w.fs 0 0 hben
      refine ⟨rows, fs', ?_, hlen⟩
      simp [main_model, hdir, hemp, hrun, Option.isNone_iff_eq_none]
      intro hu
      cases hc : w.credentials with
      | none =>
        have := hcred hu
        rw [hc] at this
        cases this
      | some t => simp [hc]

theorem C8_witness :
    ∃ rows fs',
      main_model { use_token := false, path := ".", update := false, all := false }
        { pathIsDir := true, credentials := none,
          fs := [("main.tf",
            .conf { modules := [[("vpc", [("source", "hashicorp/consul/aws"),
                                          ("version", ">=1.0")])]], rest := "" })],
          wellKnown := fun _ => .failure,
          registry := fun _ => .httpError 404,
          answers := fun _ => "", timestamp := fun _ => "" }
        = .finished rows fs' ∧
      rows.length = (scan_terraform_modules [("main.tf",
        .conf { modules := [[("vpc", [("source", "hashicorp/consul/aws"),
                                      ("version", ">=1.0")])]], rest := "" })]).length :=
  (C8_fatal_and_absorbed
    { use_token := false, path := ".", update := false, all := false }
    { pathIsDir := true, credentials := none,
      fs := [("main.tf",
        .conf { modules := [[("vpc", [("source", "hashicorp/consul/aws"),
                                      ("version", ">=1.0")])]], rest := "" })],
      wellKnown := fun _ => .failure,
      registry := fun _ => .httpError 404,
      answers := fun _ => "", timestamp := fun _ => "" }).2.2
    rfl (fun h => by cases h) (fun m _ => ⟨[], rfl⟩)
